import Mathlib

/-!
Verification of the dynagrpc type-cast registry (`dynagrpc/__init__.py`)
against its natural-language specification.

The Python source is embedded shallowly:

* Python strings are Lean `String`s (Lean 4 strings are lists of
  characters, matching Python's character-indexed slicing for the ASCII
  identifiers involved here).
* Python dicts are association lists with Python's assignment semantics:
  assigning to an existing key replaces its value in place, assigning a
  fresh key appends it (insertion order is preserved).
* Python `set` objects holding descriptor objects become `Finset Nat`
  of indices into a schema pool (`List MsgDesc`), since descriptor
  objects are compared by identity and each pool index stands for one
  descriptor object.
* Exceptions become `Except`; because Python state is mutated in place,
  an error carries the state at the moment it was raised, so that
  `try/finally` can be modelled faithfully.
* The `_astcast` helper module is not part of the sources; the claims
  settled here depend on it only as an opaque generator of converter
  callables, so it is modelled as a parameter (`AstCast`) that may
  either return an opaque converter or raise.
-/

/-- Python runtime values appearing in the enum dictionaries: integers,
strings, and `None`. -/
inductive PyVal where
  | int (n : Int)
  | str (s : String)
  | pynone
deriving DecidableEq, Repr

/-- A Python dict, as an association list in insertion order. -/
abbrev PyDict := List (PyVal × PyVal)

/-- Python dict assignment `d[k] = v`: replace in place if the key is
present, else append. -/
def setItem {κ ν : Type} [DecidableEq κ] : List (κ × ν) → κ → ν → List (κ × ν)
  | [], k, v => [(k, v)]
  | (k0, v0) :: rest, k, v =>
    if k0 = k then (k, v) :: rest else (k0, v0) :: setItem rest k v

/-- Python dict lookup `d.get(k)`. -/
def getItem? {κ ν : Type} [DecidableEq κ] : List (κ × ν) → κ → Option ν
  | [], _ => none
  | (k0, v0) :: rest, k => if k0 = k then some v0 else getItem? rest k

/-- A Python dict comprehension `{k: v for (k, v) in pairs}`. -/
def dictOfPairs {κ ν : Type} [DecidableEq κ] (pairs : List (κ × ν)) : List (κ × ν) :=
  pairs.foldl (fun d kv => setItem d kv.1 kv.2) []

/-- Python `s.startswith(pre)`. -/
def startswith (s pre : String) : Bool :=
  pre.toList.isPrefixOf s.toList

/-- Python slicing `s[n:]` (by characters). -/
def strDrop (s : String) (n : Nat) : String :=
  (s.toList.drop n).asString

/-- `re.findall("[A-Z][^A-Z]*", name)`: maximal runs of one upper-case
letter followed by non-upper-case characters; characters before the
first upper-case letter are not part of any match.  `cur` is the
current run, reversed. -/
def capRunsAux : List Char → List Char → List (List Char)
  | [], cur => if cur.isEmpty then [] else [cur.reverse]
  | c :: cs, cur =>
    if c.isUpper then
      if cur.isEmpty then capRunsAux cs [c]
      else cur.reverse :: capRunsAux cs [c]
    else
      if cur.isEmpty then capRunsAux cs []
      else capRunsAux cs (c :: cur)

/-- All matches of `[A-Z][^A-Z]*` in a character list. -/
def findCapRuns (l : List Char) : List (List Char) :=
  capRunsAux l []

/-- `itertools.groupby(runs, len)`: group consecutive runs of equal
length. -/
def groupByLen : List (List Char) → List (List (List Char))
  | [] => []
  | [r] => [[r]]
  | r1 :: r2 :: rs =>
    match groupByLen (r2 :: rs) with
    | [] => [[r1]]
    | g :: gs =>
      if r1.length = r2.length then (r1 :: g) :: gs else [r1] :: g :: gs

/-- `sep.join(runs)` over character lists. -/
def joinRuns (sep : List Char) : List (List Char) → List Char
  | [] => []
  | [r] => r
  | r :: rs => r ++ sep ++ joinRuns sep rs

/-- `pascal2snake` from the source: split into `[A-Z][^A-Z]*` runs,
group consecutive runs of equal length, join each group with `""` when
the group's runs have length 1 and with `"_"` otherwise, lower-case
each joined group, and join the groups with `"_"`. -/
def pascal2snake (name : String) : String :=
  (joinRuns [Char.ofNat 95]
    ((groupByLen (findCapRuns name.toList)).map (fun g =>
      (joinRuns (if (g.headD []).length = 1 then [] else [Char.ofNat 95]) g).map
        Char.toLower))).asString

/-- Reference formulation of the run-joining rule: adjacent runs are
separated by `"_"` unless both consist of a single character, and the
whole result is lower-cased.  This follows the (corrected) spec wording
and is proved equal to `pascal2snake`. -/
def refJoin : List (List Char) → List Char
  | [] => []
  | [r] => r
  | r1 :: r2 :: rs =>
    r1 ++ (if r1.length = 1 ∧ r2.length = 1 then [] else [Char.ofNat 95]) ++
      refJoin (r2 :: rs)

/-- Spec-side counterpart of `pascal2snake` built on `refJoin`. -/
def pascal2snakeRef (name : String) : String :=
  ((refJoin (findCapRuns name.toList)).map Char.toLower).asString

/-- The per-group join of `pascal2snake`:
`("" if length == 1 else "_").join(group)`. -/
def gjoin (g : List (List Char)) : List Char :=
  joinRuns (if (g.headD []).length = 1 then [] else [Char.ofNat 95]) g

/-- Python `s.upper()` (ASCII). -/
def strUpper (s : String) : String :=
  (s.toList.map Char.toUpper).asString

deriving instance DecidableEq for Except

/-- One value of a protobuf enum descriptor: its name and number. -/
structure EnumValueDesc where
  name : String
  number : Int
deriving DecidableEq, Repr

/-- A protobuf enum descriptor: short name, full name, ordered values. -/
structure EnumDesc where
  name : String
  full_name : String
  values : List EnumValueDesc
deriving DecidableEq, Repr

/-- The derived common enum value name start used when no explicit one
is supplied: `pascal2snake(enum_type.name).upper() + "_"`. -/
def derivedPfx (enum_type : EnumDesc) : String :=
  strUpper (pascal2snake enum_type.name) ++ "_"

/-- `ValueError` message for an explicit mismatching value name start
(`f"The {prefix!r} prefix is not common for all values"`). -/
def notCommonMsg (p : String) : String :=
  "The \x27" ++ p ++ "\x27 prefix is not common for all values"

/-- `DynaGrpcWarning` message for a derived mismatch. -/
def missingPfxMsg (enum_type : EnumDesc) : String :=
  "Missing values prefix in enum " ++ enum_type.full_name

/-- `ValueError` message for an unrecognized mode. -/
def unknownModeMsg (mode : String) : String :=
  "Unknown mode \x27" ++ mode ++ "\x27"

/-- Result of `create_enum_dict`: the warnings emitted (via
`warnings.warn`) and the returned dictionary. -/
structure CedOut where
  warns : List String
  dict : PyDict
deriving DecidableEq, Repr

/-- `create_enum_dict` from the source.  `pfx` is the optional explicit
common value name start (`None` means derive it from the enum name). -/
def create_enum_dict (enum_type : EnumDesc) (mode : String) (pfx : Option String) :
    Except String CedOut :=
  let common : String :=
    match pfx with
    | none => derivedPfx enum_type
    | some p => p
  let build : Nat → List String → Except String CedOut := fun threshold warns =>
    if mode = "int2str" then
      .ok ⟨warns, dictOfPairs (enum_type.values.map (fun v =>
        (PyVal.int v.number, PyVal.str (strDrop v.name threshold))))⟩
    else if mode = "str2int" then
      .ok ⟨warns, dictOfPairs (enum_type.values.map (fun v =>
        (PyVal.str (strDrop v.name threshold), PyVal.int v.number)))⟩
    else .error (unknownModeMsg mode)
  if enum_type.values.all (fun v => startswith v.name common) then
    build common.length []
  else
    match pfx with
    | some p => .error (notCommonMsg p)
    | none => build 0 [missingPfxMsg enum_type]

/-- A Python exception raised by the registry code. -/
inductive PyErr where
  | valueError (msg : String)
  | notImplementedError (msg : String)
  | astError (msg : String)
  | outOfFuel
deriving DecidableEq, Repr

/-- A converter value stored in a namespace slot.  Converters are
opaque callables; they are identified by how they were created:
`astLambda` is a callable produced by `_astcast.create_lambda`
(identified by the `file_name` it was compiled under, which encodes
the direction and the schema full name), `attrGetter` is
`operator.attrgetter`, and `namedFail` is `functools.partial(fail,
full_name)` with `fail` the local function in
`_register_google_types`. -/
inductive Conv where
  | astLambda (file_name : String)
  | attrGetter (attr : String)
  | namedFail (full_name : String)
deriving DecidableEq, Repr

/-- A message constructor stored in the `c` registry: either one of the
`GOOGLE_PROTOBUF_WRAPPERS` callables or a message type's
`_concrete_class`. -/
inductive Ctor where
  | wrapper (full_name : String)
  | concrete (full_name : String)
deriving DecidableEq, Repr

/-- The local `fail` function from `_register_google_types`:
`def fail(error_message, unused_input): raise NotImplementedError(error_message)`. -/
def fail (error_message : String) (unused_input : PyVal) : Except PyErr PyVal :=
  .error (.notImplementedError error_message)

/-- A protobuf field descriptor: its full name and, when it references
a message type, the pool index of that message descriptor
(`field.message_type`); `none` for scalar and enum fields. -/
structure FieldDesc where
  full_name : String
  message_type : Option Nat
deriving DecidableEq, Repr

/-- A protobuf message descriptor: full name, its
`GetOptions().map_entry` flag, and its ordered field descriptors.
Descriptors live in a pool (`List MsgDesc`); indices model object
identity. -/
structure MsgDesc where
  full_name : String
  map_entry : Bool
  fields : List FieldDesc
deriving DecidableEq, Repr

/-- The `_namespace` attribute of `GrpcTypeCastRegistry` (the `d` slot,
which holds the dict class and is never mutated, is omitted). -/
structure Namespace where
  m2p : List (String × Conv)
  p2m : List (String × Conv)
  f2p : List (String × Conv)
  p2f : List (String × Conv)
  i2s : List (String × PyDict)
  s2i : List (String × PyDict)
  c : List (String × Ctor)
deriving DecidableEq, Repr

/-- The mutable state of a `GrpcTypeCastRegistry`: the namespace and
the `_registering` set (pool indices of descriptors mid-registration). -/
structure RegState where
  ns : Namespace
  registering : Finset Nat
deriving DecidableEq

/-- The empty namespace built at the start of `__init__`. -/
def emptyNamespace : Namespace := ⟨[], [], [], [], [], [], []⟩

instance : Inhabited RegState := ⟨⟨emptyNamespace, ∅⟩⟩

/-- Modelled from the spec: the missing `_astcast` module builds
converter callables from expression trees (`create_lambda` plus the
various `*_ast` helpers).  Only its interface matters to the claims
settled here, so it is modelled as an arbitrary function from the
generated `file_name` (which encodes direction and schema full name)
to either an opaque converter or an exception message; theorems about
registration quantify over every such behaviour. -/
structure AstCast where
  create_lambda : String → Except String Conv

/-- The canonical `_astcast` behaviour: compilation always succeeds
and yields the opaque callable tagged by its `file_name`. -/
def astcastOk : AstCast := ⟨fun nm => .ok (.astLambda nm)⟩

/-- Result of a registration call: the final state, or the raised
exception together with the state at the moment it was raised (Python
mutations persist across `raise`). -/
abbrev RegResult := Except (PyErr × RegState) RegState

/-- `register_enum_type`: builds both enum projections with a derived
common value name start and assigns them, second assignment after the
first (so a failure in the second leaves the first in place). -/
def registerEnumType (enum_type : EnumDesc) (st : RegState) : RegResult :=
  match create_enum_dict enum_type "int2str" none with
  | .error msg => .error (.valueError msg, st)
  | .ok out1 =>
    let st : RegState :=
      { st with ns := { st.ns with i2s := setItem st.ns.i2s enum_type.full_name out1.dict } }
    match create_enum_dict enum_type "str2int" none with
    | .error msg => .error (.valueError msg, st)
    | .ok out2 =>
      .ok { st with ns := { st.ns with s2i := setItem st.ns.s2i enum_type.full_name out2.dict } }

/-- The second half of `register_field_type`: the two field converter
assignments (`f2p` with file name `<m2p/...>`, then `p2f` with
`<p2m/...>`). -/
def fieldConvSteps (ac : AstCast) (f : FieldDesc) (st : RegState) : RegResult :=
  match ac.create_lambda ("<m2p/" ++ f.full_name ++ ">") with
  | .error msg => .error (.astError msg, st)
  | .ok cv1 =>
    let st : RegState :=
      { st with ns := { st.ns with f2p := setItem st.ns.f2p f.full_name cv1 } }
    match ac.create_lambda ("<p2m/" ++ f.full_name ++ ">") with
    | .error msg => .error (.astError msg, st)
    | .ok cv2 =>
      .ok { st with ns := { st.ns with p2f := setItem st.ns.p2f f.full_name cv2 } }

/-- Body of `register_field_type`, parametrized by the recursive call
into `register_message_type` (`rmt`).  First the guarded recursive
registration of a referenced message type (skipped for map-entry
types and for types currently in the in-progress set), then the two
converter assignments. -/
def registerFieldTypeAux (ac : AstCast) (pool : List MsgDesc)
    (rmt : Nat → RegState → RegResult) (f : FieldDesc) (st : RegState) : RegResult :=
  let step1 : RegResult :=
    match f.message_type with
    | none => .ok st
    | some i =>
      match pool[i]? with
      | none => .ok st
      | some mt =>
        if mt.map_entry || i ∈ st.registering then .ok st
        else rmt i st
  match step1 with
  | .error e => .error e
  | .ok st => fieldConvSteps ac f st

/-- The `for field in message_type.fields: self.register_field_type(field)`
loop, stopping at the first exception. -/
def registerFieldsAux (ac : AstCast) (pool : List MsgDesc)
    (rmt : Nat → RegState → RegResult) : List FieldDesc → RegState → RegResult
  | [], st => .ok st
  | f :: fs, st =>
    match registerFieldTypeAux ac pool rmt f st with
    | .error e => .error e
    | .ok st => registerFieldsAux ac pool rmt fs st

/-- The state after the first two assignments of the `try:` block of
`register_message_type`: the compiled `m2p` and `p2m` converters are
stored under the message's full name. -/
def withMsgConvs (m : MsgDesc) (cv1 cv2 : Conv) (st : RegState) : RegState :=
  { st with ns := { st.ns with m2p := setItem st.ns.m2p m.full_name cv1,
                               p2m := setItem st.ns.p2m m.full_name cv2 } }

/-- The `try:` block of `register_message_type`: generate and assign
the `m2p` converter, then the `p2m` converter, register every field,
and record the constructor (`message_type._concrete_class`). -/
def registerBodyTry (ac : AstCast) (pool : List MsgDesc)
    (rmt : Nat → RegState → RegResult) (m : MsgDesc) (st : RegState) : RegResult :=
  match ac.create_lambda ("<m2p/" ++ m.full_name ++ ">") with
  | .error msg => .error (.astError msg, st)
  | .ok cv1 =>
    match ac.create_lambda ("<p2m/" ++ m.full_name ++ ">") with
    | .error msg =>
      .error (.astError msg,
        { st with ns := { st.ns with m2p := setItem st.ns.m2p m.full_name cv1 } })
    | .ok cv2 =>
      match registerFieldsAux ac pool rmt m.fields (withMsgConvs m cv1 cv2 st) with
      | .error e => .error e
      | .ok st =>
        .ok { st with ns := { st.ns with c := setItem st.ns.c m.full_name (.concrete m.full_name) } }

/-- The `_registering.add` / `try` / `finally: _registering.remove`
wrapper of `register_message_type`: the descriptor is removed from the
in-progress set whether the body returns or raises. -/
def registerBody (ac : AstCast) (pool : List MsgDesc)
    (rmt : Nat → RegState → RegResult) (mIdx : Nat) (m : MsgDesc) (st : RegState) : RegResult :=
  let st1 : RegState := { st with registering := insert mIdx st.registering }
  match registerBodyTry ac pool rmt m st1 with
  | .ok st2 => .ok { st2 with registering := st2.registering.erase mIdx }
  | .error (e, s) => .error (e, { s with registering := s.registering.erase mIdx })

/-- `register_message_type`, with a fuel parameter standing in for the
call stack (Python recursion is unbounded; the fuel-exhaustion error
`PyErr.outOfFuel` is a modelling artifact, proved unreachable for
sufficient fuel).  The early return on an already-populated `m2p` slot
happens before any fuel is consumed, exactly as in the source. -/
def registerMessageType (ac : AstCast) (pool : List MsgDesc) :
    Nat → Nat → RegState → RegResult
  | 0, mIdx, st =>
    match pool[mIdx]? with
    | none => .ok st
    | some m =>
      if (getItem? st.ns.m2p m.full_name).isSome then .ok st
      else .error (.outOfFuel, st)
  | fuel + 1, mIdx, st =>
    match pool[mIdx]? with
    | none => .ok st
    | some m =>
      if (getItem? st.ns.m2p m.full_name).isSome then .ok st
      else
        registerBody ac pool
          (fun i s => registerMessageType ac pool fuel i s) mIdx m st

/-- `register_field_type` as a public entry point. -/
def registerFieldType (ac : AstCast) (pool : List MsgDesc) (fuel : Nat)
    (f : FieldDesc) (st : RegState) : RegResult :=
  registerFieldTypeAux ac pool (fun i s => registerMessageType ac pool fuel i s) f st

/-- Modelled from the spec: the member list of
`_astcast.GOOGLE_PROTOBUF_WRAPPERS` (the fixed set of primitive
wrapper types from `wrappers.proto`) is not in the sources; theorems
about construction quantify over an arbitrary list of wrapper names,
and this standard list is used for concrete witnesses. -/
def stdWrappers : List String :=
  ["google.protobuf.DoubleValue", "google.protobuf.FloatValue",
   "google.protobuf.Int64Value", "google.protobuf.UInt64Value",
   "google.protobuf.Int32Value", "google.protobuf.UInt32Value",
   "google.protobuf.BoolValue", "google.protobuf.StringValue",
   "google.protobuf.BytesValue"]

/-- The wrapper registration loop of `_register_google_types`: for each
wrapper, record the constructor, the `m2p` converter
(`attrgetter("value")`) and the `p2m` converter (compiled). -/
def registerWrappers (ac : AstCast) : List String → RegState → RegResult
  | [], st => .ok st
  | nm :: rest, st =>
    let st : RegState := { st with ns := { st.ns with c := setItem st.ns.c nm (.wrapper nm) } }
    let st : RegState :=
      { st with ns := { st.ns with m2p := setItem st.ns.m2p nm (.attrGetter "value") } }
    match ac.create_lambda ("<p2m/" ++ nm ++ ">") with
    | .error msg => .error (.astError msg, st)
    | .ok cv => registerWrappers ac rest
        { st with ns := { st.ns with p2m := setItem st.ns.p2m nm cv } }

/-- The short names of the not-yet-implemented well-known types. -/
def notImplementedNames : List String :=
  ["ListValue", "Struct", "Value", "Any", "Duration", "FieldMask", "Timestamp"]

/-- The failure registration loop of `_register_google_types`: both
converter slots of each unsupported type get `partial(fail, full_name)`. -/
def registerFails : List String → RegState → RegState
  | [], st => st
  | nm :: rest, st =>
    let full := "google.protobuf." ++ nm
    let st : RegState :=
      { st with ns := { st.ns with m2p := setItem st.ns.m2p full (.namedFail full) } }
    let st : RegState :=
      { st with ns := { st.ns with p2m := setItem st.ns.p2m full (.namedFail full) } }
    registerFails rest st

/-- The registry state after `__init__` sets up the empty namespace
and in-progress set and `_register_google_types` assigns the NullValue
enum projections, just before the wrapper loop. -/
def preWrapperState : RegState :=
  let st : RegState := { ns := emptyNamespace, registering := ∅ }
  let st : RegState :=
    { st with ns := { st.ns with
        i2s := setItem st.ns.i2s "google.protobuf.NullValue" [(PyVal.int 0, PyVal.pynone)] } }
  { st with ns := { st.ns with
      s2i := setItem st.ns.s2i "google.protobuf.NullValue" [(PyVal.pynone, PyVal.int 0)] } }

/-- `GrpcTypeCastRegistry.__init__`: empty namespace, empty in-progress
set, then `_register_google_types` (NullValue enum projections, the
wrapper loop, the failure loop). -/
def mkRegistry (ac : AstCast) (wrappers : List String) : RegResult :=
  match registerWrappers ac wrappers preWrapperState with
  | .error e => .error e
  | .ok st => .ok (registerFails notImplementedNames st)

/-- Whether a registration result is the fuel-exhaustion modelling
artifact (never the case for sufficient fuel; see
`registerMessageType_terminates`). -/
def fuelExhausted : RegResult → Bool
  | .error (.outOfFuel, _) => true
  | _ => false

/-- Extract the state carried by a registration result. -/
def okState (r : RegResult) : RegState :=
  match r with
  | .ok s => s
  | .error e => e.2

/-- The registry state right after construction with the canonical
`_astcast` behaviour and the standard wrapper list. -/
def demoInit : RegState := okState (mkRegistry astcastOk stdWrappers)

/-- The `google.protobuf.NullValue` enum descriptor from
`struct.proto`: a single value `NULL_VALUE = 0`. -/
def nullValueEnum : EnumDesc :=
  ⟨"NullValue", "google.protobuf.NullValue", [⟨"NULL_VALUE", 0⟩]⟩

/-- The state after re-registering the NullValue enum on a fresh
registry. -/
def demoAfterNull : RegState := okState (registerEnumType nullValueEnum demoInit)

/-- An enum descriptor following the naming convention
(`COLOR_RED`, `COLOR_BLUE` under enum name `Color`). -/
def colorEnum : EnumDesc :=
  ⟨"Color", "test.Color", [⟨"COLOR_RED", 0⟩, ⟨"COLOR_BLUE", 1⟩]⟩

/-- An enum descriptor violating the naming convention (`RED`, `BLUE`
under enum name `Color`). -/
def colorPlainEnum : EnumDesc :=
  ⟨"Color", "test.Color", [⟨"RED", 0⟩, ⟨"BLUE", 1⟩]⟩

/-- The dictionary `create_enum_dict` computes for an enum with a
derived common value name start (it never raises in that case). -/
def cedDictOr (e : EnumDesc) (mode : String) : PyDict :=
  match create_enum_dict e mode none with
  | .ok o => o.dict
  | .error _ => []

/-- The state after registering `colorPlainEnum` on a fresh registry. -/
def demoAfterColor : RegState := okState (registerEnumType colorPlainEnum demoInit)

/-- A two-message schema pool in which each message references the
other through a field: a mutually recursive schema graph. -/
def demoPool : List MsgDesc :=
  [⟨"test.A", false, [⟨"test.A.b", some 1⟩]⟩,
   ⟨"test.B", false, [⟨"test.B.a", some 0⟩]⟩]

/-- The state after registering message 0 of `demoPool` on a pristine
state. -/
def demoAfterMsg : RegState :=
  okState (registerMessageType astcastOk demoPool 3 0 default)

theorem getItem?_setItem_self {κ ν : Type} [DecidableEq κ] (d : List (κ × ν)) (k : κ) (v : ν) :
    getItem? (setItem d k v) k = some v := by
  induction d with
  | nil => simp [setItem, getItem?]
  | cons kv rest ih =>
    by_cases h : kv.1 = k
    · simp [setItem, getItem?, h]
    · simpa [setItem, getItem?, h] using ih

theorem getItem?_setItem_ne {κ ν : Type} [DecidableEq κ] (d : List (κ × ν)) (k k' : κ) (v : ν)
    (h : k' ≠ k) : getItem? (setItem d k v) k' = getItem? d k' := by
  induction d with
  | nil => simp [setItem, getItem?, Ne.symm h]
  | cons kv rest ih =>
    by_cases h1 : kv.1 = k
    · subst h1
      simp [setItem, getItem?, Ne.symm h]
    · by_cases h2 : kv.1 = k'
      · simp [setItem, getItem?, h1, h2, h]
      · simpa [setItem, getItem?, h1, h2] using ih

theorem isSome_getItem?_setItem {κ ν : Type} [DecidableEq κ] (d : List (κ × ν)) (k k' : κ)
    (v : ν) (h : (getItem? d k').isSome) : (getItem? (setItem d k v) k').isSome := by
  by_cases he : k' = k
  · subst he
    simp [getItem?_setItem_self]
  · rwa [getItem?_setItem_ne d k k' v he]

theorem groupByLen_head (xs : List (List Char)) :
    ∀ x, ∃ t gs, groupByLen (x :: xs) = (x :: t) :: gs := by
  induction xs with
  | nil => exact fun x => ⟨[], [], rfl⟩
  | cons y ys ih =>
    intro x
    obtain ⟨t, gs, h⟩ := ih y
    by_cases hl : x.length = y.length
    · exact ⟨y :: t, gs, by simp [groupByLen, h, hl]⟩
    · exact ⟨[], (y :: t) :: gs, by simp [groupByLen, h, hl]⟩

theorem joinRuns_glue (s a b x : List Char) (ys : List (List Char)) :
    joinRuns s ((a ++ b ++ x) :: ys) = a ++ b ++ joinRuns s (x :: ys) := by
  cases ys with
  | nil => simp [joinRuns]
  | cons y ys' => simp [joinRuns]

theorem joinRuns_lower (l : List (List Char)) :
    joinRuns [Char.ofNat 95] (l.map (List.map Char.toLower)) =
      (joinRuns [Char.ofNat 95] l).map Char.toLower := by
  induction l with
  | nil => simp [joinRuns]
  | cons r rs ih =>
    cases rs with
    | nil => simp [joinRuns]
    | cons r2 rs' =>
      have hu : Char.toLower (Char.ofNat 95) = Char.ofNat 95 := by decide
      calc joinRuns [Char.ofNat 95] ((r :: r2 :: rs').map (List.map Char.toLower))
          = r.map Char.toLower ++ [Char.ofNat 95] ++
              joinRuns [Char.ofNat 95] ((r2 :: rs').map (List.map Char.toLower)) := by
            simp only [List.map_cons, joinRuns]
        _ = r.map Char.toLower ++ [Char.ofNat 95] ++
              (joinRuns [Char.ofNat 95] (r2 :: rs')).map Char.toLower := by rw [ih]
        _ = (joinRuns [Char.ofNat 95] (r :: r2 :: rs')).map Char.toLower := by
            simp only [joinRuns, List.map_append, List.map_cons, List.map_nil, hu]

theorem joinGroups_aux (rs : List (List Char)) :
    ∀ r1, joinRuns [Char.ofNat 95] ((groupByLen (r1 :: rs)).map gjoin) = refJoin (r1 :: rs) := by
  induction rs with
  | nil =>
    intro r1
    simp [groupByLen, gjoin, joinRuns, refJoin]
  | cons r2 rs' ih =>
    intro r1
    obtain ⟨t, gs, h⟩ := groupByLen_head rs' r2
    have ihr := ih r2
    rw [h, List.map_cons] at ihr
    by_cases hl : r1.length = r2.length
    · have hgl : groupByLen (r1 :: r2 :: rs') = (r1 :: r2 :: t) :: gs := by
        simp [groupByLen, h, hl]
      have hstep : gjoin (r1 :: r2 :: t) =
          r1 ++ (if r2.length = 1 then ([] : List Char) else [Char.ofNat 95]) ++
            gjoin (r2 :: t) := by
        simp only [gjoin, List.headD_cons]
        rw [show (if r1.length = 1 then ([] : List Char) else [Char.ofNat 95]) =
            (if r2.length = 1 then ([] : List Char) else [Char.ofNat 95]) from by rw [hl]]
        rfl
      rw [hgl, List.map_cons, hstep, joinRuns_glue, ihr]
      rw [show refJoin (r1 :: r2 :: rs') =
          r1 ++ (if r1.length = 1 ∧ r2.length = 1 then ([] : List Char) else [Char.ofNat 95]) ++
            refJoin (r2 :: rs') from rfl]
      rw [show (if r1.length = 1 ∧ r2.length = 1 then ([] : List Char) else [Char.ofNat 95]) =
          (if r2.length = 1 then ([] : List Char) else [Char.ofNat 95]) from by
        by_cases h1 : r1.length = 1
        · have h2 : r2.length = 1 := (hl.symm.trans h1)
          simp [h1, h2]
        · have h2 : r2.length ≠ 1 := fun hh => h1 (hl.trans hh)
          simp [h1, h2]]
    · have hgl : groupByLen (r1 :: r2 :: rs') = [r1] :: (r2 :: t) :: gs := by
        simp [groupByLen, h, hl]
      rw [hgl, List.map_cons, List.map_cons]
      rw [show joinRuns [Char.ofNat 95] (gjoin [r1] :: gjoin (r2 :: t) :: gs.map gjoin) =
          gjoin [r1] ++ [Char.ofNat 95] ++
            joinRuns [Char.ofNat 95] (gjoin (r2 :: t) :: gs.map gjoin) from rfl]
      rw [ihr]
      rw [show gjoin [r1] = r1 from rfl]
      rw [show refJoin (r1 :: r2 :: rs') =
          r1 ++ (if r1.length = 1 ∧ r2.length = 1 then ([] : List Char) else [Char.ofNat 95]) ++
            refJoin (r2 :: rs') from rfl]
      rw [show (if r1.length = 1 ∧ r2.length = 1 then ([] : List Char) else [Char.ofNat 95]) =
          [Char.ofNat 95] from by
        by_cases h1 : r1.length = 1 <;> by_cases h2 : r2.length = 1 <;> simp_all]

theorem joinGroups_eq_refJoin (rs : List (List Char)) :
    joinRuns [Char.ofNat 95] ((groupByLen rs).map gjoin) = refJoin rs := by
  cases rs with
  | nil => simp [groupByLen, joinRuns, refJoin]
  | cons r1 rest => exact joinGroups_aux rest r1

theorem strDrop_zero (s : String) : strDrop s 0 = s := rfl

/-- C2 (counterexample): `pascal2snake` applied to the acronym `"ID"`
followed by `"Code"` yields `"id_code"`, not `"i_d_code"` as the spec
claims: consecutive single-character runs are joined with the *empty*
string and multi-character runs with `"_"`, the opposite of the
asymmetry the spec states. -/
theorem pascal2snake_IDCode_counterexample :
    pascal2snake "IDCode" = "id_code" ∧ pascal2snake "IDCode" ≠ "i_d_code" := by
  exact ⟨by decide, by decide⟩

/-- C2 (amended): `pascal2snake` splits its input into maximal runs of
one upper-case letter followed by non-upper-case characters, joins the
runs — inserting an underscore between two adjacent runs unless both
consist of a single character, in which case nothing is inserted — and
lower-cases the result (`pascal2snakeRef` states this rule directly);
in particular `"IDCode"` yields `"id_code"`. -/
theorem pascal2snake_run_joining (name : String) :
    pascal2snake name = pascal2snakeRef name := by
  show (joinRuns [Char.ofNat 95] ((groupByLen (findCapRuns name.toList)).map
      (fun g => (gjoin g).map Char.toLower))).asString = _
  rw [show ((groupByLen (findCapRuns name.toList)).map (fun g => (gjoin g).map Char.toLower)) =
      (((groupByLen (findCapRuns name.toList)).map gjoin).map (List.map Char.toLower)) from by
    rw [List.map_map]; rfl]
  rw [joinRuns_lower, joinGroups_eq_refJoin]
  rfl

/-- C5: with an explicitly supplied common value name start, if any
value name does not start with it, `create_enum_dict` raises the
`ValueError` reporting that it is not common to all values, whatever
the `mode` argument is (the check precedes mode validation). -/
theorem ced_explicit_mismatch (e : EnumDesc) (p mode : String)
    (h : e.values.all (fun v => startswith v.name p) = false) :
    create_enum_dict e mode (some p) = .error (notCommonMsg p) := by
  simp [create_enum_dict, h]

/-- C5 witness: enum values `RED`, `BLUE` with explicit `"X_"` fail
with the configuration error, here under an arbitrary bogus mode. -/
theorem ced_explicit_mismatch_witness :
    colorPlainEnum.values.all (fun v => startswith v.name "X_") = false ∧
    create_enum_dict colorPlainEnum "bogus" (some "X_") = .error (notCommonMsg "X_") :=
  ⟨by decide, ced_explicit_mismatch colorPlainEnum "X_" "bogus" (by decide)⟩

/-- C6: with a derived common value name start that not all value
names share, `create_enum_dict` warns (`DynaGrpcWarning`) instead of
raising and builds the dictionaries from the full, unstripped names
(codes to complete names in `int2str` mode, complete names to codes in
`str2int` mode). -/
theorem ced_derived_mismatch (e : EnumDesc)
    (h : e.values.all (fun v => startswith v.name (derivedPfx e)) = false) :
    create_enum_dict e "int2str" none =
      .ok ⟨[missingPfxMsg e], dictOfPairs (e.values.map (fun v =>
        (PyVal.int v.number, PyVal.str v.name)))⟩ ∧
    create_enum_dict e "str2int" none =
      .ok ⟨[missingPfxMsg e], dictOfPairs (e.values.map (fun v =>
        (PyVal.str v.name, PyVal.int v.number)))⟩ := by
  constructor <;> simp [create_enum_dict, h, strDrop_zero]

/-- C6 witness: enum `Color` with values `RED`, `BLUE` derives
`"COLOR_"`, warns, and yields `{0: "RED", 1: "BLUE"}` unstripped. -/
theorem ced_derived_mismatch_witness :
    colorPlainEnum.values.all (fun v => startswith v.name (derivedPfx colorPlainEnum)) = false ∧
    create_enum_dict colorPlainEnum "int2str" none =
      .ok ⟨[missingPfxMsg colorPlainEnum],
        [(PyVal.int 0, PyVal.str "RED"), (PyVal.int 1, PyVal.str "BLUE")]⟩ ∧
    create_enum_dict colorPlainEnum "str2int" none =
      .ok ⟨[missingPfxMsg colorPlainEnum],
        [(PyVal.str "RED", PyVal.int 0), (PyVal.str "BLUE", PyVal.int 1)]⟩ :=
  ⟨by decide, ((ced_derived_mismatch colorPlainEnum (by decide)).1).trans (by decide),
    ((ced_derived_mismatch colorPlainEnum (by decide)).2).trans (by decide)⟩

/-- C7: with no explicit common value name start,
`create_enum_dict` derives it as the upper snake-case form of the enum
name plus `"_"` (`derivedPfx`), and when every value name starts with
it, the value names are stripped of that many characters: codes map to
stripped names in `int2str` mode and stripped names map to codes in
`str2int` mode. -/
theorem ced_derived_strips (e : EnumDesc)
    (h : e.values.all (fun v => startswith v.name (derivedPfx e)) = true) :
    create_enum_dict e "int2str" none =
      .ok ⟨[], dictOfPairs (e.values.map (fun v =>
        (PyVal.int v.number, PyVal.str (strDrop v.name (derivedPfx e).length))))⟩ ∧
    create_enum_dict e "str2int" none =
      .ok ⟨[], dictOfPairs (e.values.map (fun v =>
        (PyVal.str (strDrop v.name (derivedPfx e).length), PyVal.int v.number)))⟩ := by
  constructor <;> simp [create_enum_dict, h]

/-- C7 witness: enum `Color` with `COLOR_RED = 0`, `COLOR_BLUE = 1`
yields `{0: "RED", 1: "BLUE"}` and `{"RED": 0, "BLUE": 1}`. -/
theorem ced_derived_strips_witness :
    colorEnum.values.all (fun v => startswith v.name (derivedPfx colorEnum)) = true ∧
    create_enum_dict colorEnum "int2str" none =
      .ok ⟨[], [(PyVal.int 0, PyVal.str "RED"), (PyVal.int 1, PyVal.str "BLUE")]⟩ ∧
    create_enum_dict colorEnum "str2int" none =
      .ok ⟨[], [(PyVal.str "RED", PyVal.int 0), (PyVal.str "BLUE", PyVal.int 1)]⟩ :=
  ⟨by decide, ((ced_derived_strips colorEnum (by decide)).1).trans (by decide),
    ((ced_derived_strips colorEnum (by decide)).2).trans (by decide)⟩

/-- C1 (counterexample): the namespace invariant claimed by the spec
does not hold: on a freshly constructed registry the built-in
`google.protobuf.NullValue` projection `{0: None}` is populated, yet a
later `register_enum_type` for the same schema overwrites both enum
slots with the generically computed dictionaries (`{0: "NULL_VALUE"}`
and `{"NULL_VALUE": 0}`). -/
theorem nullValue_slot_overwritten :
    getItem? demoInit.ns.i2s "google.protobuf.NullValue" = some [(PyVal.int 0, PyVal.pynone)] ∧
    registerEnumType nullValueEnum demoInit = .ok demoAfterNull ∧
    getItem? demoAfterNull.ns.i2s "google.protobuf.NullValue" =
      some [(PyVal.int 0, PyVal.str "NULL_VALUE")] ∧
    getItem? demoAfterNull.ns.s2i "google.protobuf.NullValue" =
      some [(PyVal.str "NULL_VALUE", PyVal.int 0)] :=
  ⟨by decide, by decide, by decide, by decide⟩

/-- C1 (amended): only `register_message_type` protects populated
slots (through its message-to-container early return);
`register_enum_type` always assigns freshly computed dictionaries to
the enum slots of its schema, so for those slots the *last*
registration wins and built-in entries such as the NullValue
projection are not preserved. -/
theorem registerEnumType_overwrites (e : EnumDesc) (st st' : RegState)
    (h : registerEnumType e st = .ok st') :
    getItem? st'.ns.i2s e.full_name = some (cedDictOr e "int2str") ∧
    getItem? st'.ns.s2i e.full_name = some (cedDictOr e "str2int") := by
  unfold registerEnumType at h
  cases h1 : create_enum_dict e "int2str" none with
  | error msg => rw [h1] at h; cases h
  | ok out1 =>
    rw [h1] at h
    cases h2 : create_enum_dict e "str2int" none with
    | error msg => rw [h2] at h; cases h
    | ok out2 =>
      rw [h2] at h
      cases h
      constructor
      · simp [cedDictOr, h1, getItem?_setItem_self]
      · simp [cedDictOr, h2, getItem?_setItem_self]

/-- C1 (amended) witness: registering the plain `Color` enum on a
fresh registry populates both its slots with the computed
dictionaries. -/
theorem registerEnumType_overwrites_witness :
    registerEnumType colorPlainEnum demoInit = .ok demoAfterColor ∧
    getItem? demoAfterColor.ns.i2s colorPlainEnum.full_name =
      some (cedDictOr colorPlainEnum "int2str") :=
  ⟨by decide,
    (registerEnumType_overwrites colorPlainEnum demoInit demoAfterColor (by decide)).1⟩

theorem registerWrappers_enum_slots (ac : AstCast) :
    ∀ (ws : List String) (st st' : RegState), registerWrappers ac ws st = .ok st' →
      st'.ns.i2s = st.ns.i2s ∧ st'.ns.s2i = st.ns.s2i := by
  intro ws
  induction ws with
  | nil =>
    intro st st' h
    cases h
    exact ⟨rfl, rfl⟩
  | cons nm rest ih =>
    intro st st' h
    cases hc : ac.create_lambda ("<p2m/" ++ nm ++ ">") with
    | error msg =>
      simp only [registerWrappers, hc] at h
      cases h
    | ok cv =>
      simp only [registerWrappers, hc] at h
      have hrec := ih _ _ h
      exact hrec

theorem registerFails_enum_slots :
    ∀ (nms : List String) (st : RegState),
      (registerFails nms st).ns.i2s = st.ns.i2s ∧ (registerFails nms st).ns.s2i = st.ns.s2i := by
  intro nms
  induction nms with
  | nil => exact fun st => ⟨rfl, rfl⟩
  | cons nm rest ih => intro st; exact ih _

/-- C10: on every successfully constructed registry, the built-in
`google.protobuf.NullValue` enum projection maps the integer code `0`
to the Python value `None` (not the name string `"NULL_VALUE"`), and
`None` back to `0`. -/
theorem mkRegistry_nullValue (ac : AstCast) (wrappers : List String) (st : RegState)
    (h : mkRegistry ac wrappers = .ok st) :
    getItem? st.ns.i2s "google.protobuf.NullValue" = some [(PyVal.int 0, PyVal.pynone)] ∧
    getItem? st.ns.s2i "google.protobuf.NullValue" = some [(PyVal.pynone, PyVal.int 0)] := by
  unfold mkRegistry at h
  cases hw : registerWrappers ac wrappers preWrapperState with
  | error e => rw [hw] at h; cases h
  | ok st2 =>
    rw [hw] at h
    cases h
    obtain ⟨hf1, hf2⟩ := registerFails_enum_slots notImplementedNames st2
    obtain ⟨hw1, hw2⟩ := registerWrappers_enum_slots ac wrappers _ _ hw
    rw [hf1, hw1, hf2, hw2]
    exact ⟨rfl, rfl⟩

/-- C10 witness: the concretely constructed registry holds exactly
those two built-in NullValue dictionaries. -/
theorem mkRegistry_nullValue_witness :
    mkRegistry astcastOk stdWrappers = .ok demoInit ∧
    getItem? demoInit.ns.i2s "google.protobuf.NullValue" =
      some [(PyVal.int 0, PyVal.pynone)] :=
  ⟨by decide, (mkRegistry_nullValue astcastOk stdWrappers demoInit (by decide)).1⟩

/-- C8: on every successfully constructed registry, each of the seven
well-known complex types holds `partial(fail, full_name)` in both
converter slots, and applying `fail` bound to that schema name raises
`NotImplementedError` naming the schema on every input. -/
theorem mkRegistry_complex_fail (ac : AstCast) (wrappers : List String) (st : RegState)
    (h : mkRegistry ac wrappers = .ok st) :
    ∀ nm ∈ notImplementedNames,
      getItem? st.ns.m2p ("google.protobuf." ++ nm) =
        some (.namedFail ("google.protobuf." ++ nm)) ∧
      getItem? st.ns.p2m ("google.protobuf." ++ nm) =
        some (.namedFail ("google.protobuf." ++ nm)) ∧
      ∀ v, fail ("google.protobuf." ++ nm) v =
        .error (.notImplementedError ("google.protobuf." ++ nm)) := by
  unfold mkRegistry at h
  cases hw : registerWrappers ac wrappers preWrapperState with
  | error e => rw [hw] at h; cases h
  | ok st2 =>
    rw [hw] at h
    cases h
    intro nm hnm
    simp only [notImplementedNames, List.mem_cons, List.not_mem_nil, or_false] at hnm
    rcases hnm with rfl | rfl | rfl | rfl | rfl | rfl | rfl <;>
      refine ⟨?_, ?_, fun v => rfl⟩ <;>
        simp +decide [registerFails, notImplementedNames,
          getItem?_setItem_self, getItem?_setItem_ne]

/-- C8 witness: on the concretely constructed registry the Timestamp
slots hold the named failure converter, which raises the
not-implemented error naming `google.protobuf.Timestamp` on a sample
input. -/
theorem mkRegistry_complex_fail_witness :
    ("Timestamp" ∈ notImplementedNames) ∧
    getItem? demoInit.ns.m2p "google.protobuf.Timestamp" =
      some (.namedFail "google.protobuf.Timestamp") ∧
    fail "google.protobuf.Timestamp" (PyVal.int 7) =
      .error (.notImplementedError "google.protobuf.Timestamp") :=
  ⟨by decide,
    (mkRegistry_complex_fail astcastOk stdWrappers demoInit (by decide) "Timestamp"
      (by decide)).1,
    (mkRegistry_complex_fail astcastOk stdWrappers demoInit (by decide) "Timestamp"
      (by decide)).2.2 (PyVal.int 7)⟩

theorem fieldConvSteps_reg (ac : AstCast) (f : FieldDesc) (st st' : RegState)
    (h : fieldConvSteps ac f st = .ok st') : st'.registering = st.registering := by
  cases hc1 : ac.create_lambda ("<m2p/" ++ f.full_name ++ ">") with
  | error msg => simp only [fieldConvSteps, hc1] at h; cases h
  | ok cv1 =>
    cases hc2 : ac.create_lambda ("<p2m/" ++ f.full_name ++ ">") with
    | error msg => simp only [fieldConvSteps, hc1, hc2] at h; cases h
    | ok cv2 =>
      simp only [fieldConvSteps, hc1, hc2] at h
      cases h
      rfl

theorem registerFieldTypeAux_reg (ac : AstCast) (pool : List MsgDesc)
    (rmt : Nat → RegState → RegResult)
    (hrmt : ∀ i s s', i ∉ s.registering → rmt i s = .ok s' → s'.registering = s.registering)
    (f : FieldDesc) (st st' : RegState)
    (h : registerFieldTypeAux ac pool rmt f st = .ok st') :
    st'.registering = st.registering := by
  cases hft : f.message_type with
  | none =>
    simp only [registerFieldTypeAux, hft] at h
    exact fieldConvSteps_reg ac f st st' h
  | some i =>
    cases hp : pool[i]? with
    | none =>
      simp only [registerFieldTypeAux, hft, hp] at h
      exact fieldConvSteps_reg ac f st st' h
    | some mt =>
      simp only [registerFieldTypeAux, hft, hp] at h
      by_cases hguard : (mt.map_entry || decide (i ∈ st.registering)) = true
      · rw [if_pos hguard] at h
        exact fieldConvSteps_reg ac f st st' h
      · rw [if_neg hguard] at h
        have hnotin : i ∉ st.registering := by
          intro hin
          exact hguard (by simp [hin])
        cases hr : rmt i st with
        | error e => rw [hr] at h; cases h
        | ok s1 =>
          rw [hr] at h
          rw [fieldConvSteps_reg ac f s1 st' h, hrmt i st s1 hnotin hr]

theorem registerFieldsAux_reg (ac : AstCast) (pool : List MsgDesc)
    (rmt : Nat → RegState → RegResult)
    (hrmt : ∀ i s s', i ∉ s.registering → rmt i s = .ok s' → s'.registering = s.registering) :
    ∀ (fs : List FieldDesc) (st st' : RegState),
      registerFieldsAux ac pool rmt fs st = .ok st' → st'.registering = st.registering := by
  intro fs
  induction fs with
  | nil =>
    intro st st' h
    cases h
    rfl
  | cons f rest ih =>
    intro st st' h
    simp only [registerFieldsAux] at h
    cases hf : registerFieldTypeAux ac pool rmt f st with
    | error e => rw [hf] at h; cases h
    | ok s1 =>
      rw [hf] at h
      rw [ih s1 st' h, registerFieldTypeAux_reg ac pool rmt hrmt f st s1 hf]

theorem registerBodyTry_reg (ac : AstCast) (pool : List MsgDesc)
    (rmt : Nat → RegState → RegResult)
    (hrmt : ∀ i s s', i ∉ s.registering → rmt i s = .ok s' → s'.registering = s.registering)
    (m : MsgDesc) (st st' : RegState)
    (h : registerBodyTry ac pool rmt m st = .ok st') : st'.registering = st.registering := by
  cases hc1 : ac.create_lambda ("<m2p/" ++ m.full_name ++ ">") with
  | error msg => simp only [registerBodyTry, hc1] at h; cases h
  | ok cv1 =>
    cases hc2 : ac.create_lambda ("<p2m/" ++ m.full_name ++ ">") with
    | error msg => simp only [registerBodyTry, hc1, hc2] at h; cases h
    | ok cv2 =>
      simp only [registerBodyTry, hc1, hc2] at h
      split at h
      · cases h
      · rename_i s2 heq
        cases h
        have hfr := registerFieldsAux_reg ac pool rmt hrmt m.fields _ s2 heq
        exact hfr

theorem registerMessageType_reg (ac : AstCast) (pool : List MsgDesc) :
    ∀ (fuel i : Nat) (s s' : RegState), i ∉ s.registering →
      registerMessageType ac pool fuel i s = .ok s' → s'.registering = s.registering := by
  intro fuel
  induction fuel with
  | zero =>
    intro i s s' hnotin h
    cases hp : pool[i]? with
    | none =>
      simp only [registerMessageType, hp] at h
      cases h
      rfl
    | some m =>
      simp only [registerMessageType, hp] at h
      by_cases hm : (getItem? s.ns.m2p m.full_name).isSome
      · rw [if_pos hm] at h
        cases h
        rfl
      · rw [if_neg hm] at h
        cases h
  | succ n ih =>
    intro i s s' hnotin h
    cases hp : pool[i]? with
    | none =>
      simp only [registerMessageType, hp] at h
      cases h
      rfl
    | some m =>
      simp only [registerMessageType, hp] at h
      by_cases hm : (getItem? s.ns.m2p m.full_name).isSome
      · rw [if_pos hm] at h
        cases h
        rfl
      · rw [if_neg hm] at h
        simp only [registerBody] at h
        cases hb : registerBodyTry ac pool (fun i s => registerMessageType ac pool n i s) m
            { s with registering := insert i s.registering } with
        | error e => rw [hb] at h; cases h
        | ok s2 =>
          rw [hb] at h
          cases h
          have h2 := registerBodyTry_reg ac pool _ (fun j t t' hj ht => ih j t t' hj ht) m _ s2 hb
          simp only [h2]
          exact Finset.erase_insert hnotin

/-- C3: for a message descriptor not already in the in-progress set,
`register_message_type` leaves it out of the in-progress set on every
exit path — both when it returns normally and when it propagates an
exception raised while generating converters, registering fields, or
recording the constructor — so a later registration attempt of the
same type is not blocked. -/
theorem registerMessageType_cleanup (ac : AstCast) (pool : List MsgDesc) (fuel mIdx : Nat)
    (st : RegState) (h : mIdx ∉ st.registering) :
    (∀ st', registerMessageType ac pool fuel mIdx st = .ok st' → mIdx ∉ st'.registering) ∧
    (∀ e s, registerMessageType ac pool fuel mIdx st = .error (e, s) → mIdx ∉ s.registering) := by
  cases fuel with
  | zero =>
    constructor
    · intro st' heq
      cases hp : pool[mIdx]? with
      | none =>
        simp only [registerMessageType, hp] at heq
        cases heq
        exact h
      | some m =>
        simp only [registerMessageType, hp] at heq
        by_cases hm : (getItem? st.ns.m2p m.full_name).isSome
        · rw [if_pos hm] at heq
          cases heq
          exact h
        · rw [if_neg hm] at heq
          cases heq
    · intro e s heq
      cases hp : pool[mIdx]? with
      | none => simp only [registerMessageType, hp] at heq; cases heq
      | some m =>
        simp only [registerMessageType, hp] at heq
        by_cases hm : (getItem? st.ns.m2p m.full_name).isSome
        · rw [if_pos hm] at heq
          cases heq
        · rw [if_neg hm] at heq
          cases heq
          exact h
  | succ n =>
    constructor
    · intro st' heq
      cases hp : pool[mIdx]? with
      | none =>
        simp only [registerMessageType, hp] at heq
        cases heq
        exact h
      | some m =>
        simp only [registerMessageType, hp] at heq
        by_cases hm : (getItem? st.ns.m2p m.full_name).isSome
        · rw [if_pos hm] at heq
          cases heq
          exact h
        · rw [if_neg hm] at heq
          simp only [registerBody] at heq
          cases hb : registerBodyTry ac pool (fun i s => registerMessageType ac pool n i s) m
              { st with registering := insert mIdx st.registering } with
          | error e => rw [hb] at heq; cases heq
          | ok s2 =>
            rw [hb] at heq
            cases heq
            exact Finset.not_mem_erase mIdx s2.registering
    · intro e s heq
      cases hp : pool[mIdx]? with
      | none => simp only [registerMessageType, hp] at heq; cases heq
      | some m =>
        simp only [registerMessageType, hp] at heq
        by_cases hm : (getItem? st.ns.m2p m.full_name).isSome
        · rw [if_pos hm] at heq
          cases heq
        · rw [if_neg hm] at heq
          simp only [registerBody] at heq
          cases hb : registerBodyTry ac pool (fun i s => registerMessageType ac pool n i s) m
              { st with registering := insert mIdx st.registering } with
          | error e1 =>
            rw [hb] at heq
            cases heq
            exact Finset.not_mem_erase mIdx e1.2.registering
          | ok s2 => rw [hb] at heq; cases heq

/-- C3 witness: on the mutually recursive demo pool, registering
message 0 from a pristine state succeeds and leaves it out of the
in-progress set. -/
theorem registerMessageType_cleanup_witness :
    (0 ∉ (default : RegState).registering) ∧ 0 ∉ demoAfterMsg.registering :=
  ⟨by decide,
    (registerMessageType_cleanup astcastOk demoPool 3 0 default (by decide)).1
      demoAfterMsg (by decide)⟩

theorem fieldConvSteps_m2p (ac : AstCast) (f : FieldDesc) (st st' : RegState)
    (h : fieldConvSteps ac f st = .ok st') : st'.ns.m2p = st.ns.m2p := by
  cases hc1 : ac.create_lambda ("<m2p/" ++ f.full_name ++ ">") with
  | error msg => simp only [fieldConvSteps, hc1] at h; cases h
  | ok cv1 =>
    cases hc2 : ac.create_lambda ("<p2m/" ++ f.full_name ++ ">") with
    | error msg => simp only [fieldConvSteps, hc1, hc2] at h; cases h
    | ok cv2 =>
      simp only [fieldConvSteps, hc1, hc2] at h
      cases h
      rfl

theorem registerFieldTypeAux_m2p (ac : AstCast) (pool : List MsgDesc)
    (rmt : Nat → RegState → RegResult)
    (hrmt : ∀ i s s' k, rmt i s = .ok s' →
      (getItem? s.ns.m2p k).isSome → (getItem? s'.ns.m2p k).isSome)
    (f : FieldDesc) (st st' : RegState) (k : String)
    (h : registerFieldTypeAux ac pool rmt f st = .ok st')
    (hk : (getItem? st.ns.m2p k).isSome) : (getItem? st'.ns.m2p k).isSome := by
  cases hft : f.message_type with
  | none =>
    simp only [registerFieldTypeAux, hft] at h
    rw [fieldConvSteps_m2p ac f st st' h]
    exact hk
  | some i =>
    cases hp : pool[i]? with
    | none =>
      simp only [registerFieldTypeAux, hft, hp] at h
      rw [fieldConvSteps_m2p ac f st st' h]
      exact hk
    | some mt =>
      simp only [registerFieldTypeAux, hft, hp] at h
      by_cases hguard : (mt.map_entry || decide (i ∈ st.registering)) = true
      · rw [if_pos hguard] at h
        rw [fieldConvSteps_m2p ac f st st' h]
        exact hk
      · rw [if_neg hguard] at h
        cases hr : rmt i st with
        | error e => rw [hr] at h; cases h
        | ok s1 =>
          rw [hr] at h
          rw [fieldConvSteps_m2p ac f s1 st' h]
          exact hrmt i st s1 k hr hk

theorem registerFieldsAux_m2p (ac : AstCast) (pool : List MsgDesc)
    (rmt : Nat → RegState → RegResult)
    (hrmt : ∀ i s s' k, rmt i s = .ok s' →
      (getItem? s.ns.m2p k).isSome → (getItem? s'.ns.m2p k).isSome) :
    ∀ (fs : List FieldDesc) (st st' : RegState) (k : String),
      registerFieldsAux ac pool rmt fs st = .ok st' →
      (getItem? st.ns.m2p k).isSome → (getItem? st'.ns.m2p k).isSome := by
  intro fs
  induction fs with
  | nil =>
    intro st st' k h hk
    cases h
    exact hk
  | cons f rest ih =>
    intro st st' k h hk
    simp only [registerFieldsAux] at h
    cases hf : registerFieldTypeAux ac pool rmt f st with
    | error e => rw [hf] at h; cases h
    | ok s1 =>
      rw [hf] at h
      exact ih s1 st' k h (registerFieldTypeAux_m2p ac pool rmt hrmt f st s1 k hf hk)

theorem registerBodyTry_m2p_mono (ac : AstCast) (pool : List MsgDesc)
    (rmt : Nat → RegState → RegResult)
    (hrmt : ∀ i s s' k, rmt i s = .ok s' →
      (getItem? s.ns.m2p k).isSome → (getItem? s'.ns.m2p k).isSome)
    (m : MsgDesc) (st st' : RegState) (k : String)
    (h : registerBodyTry ac pool rmt m st = .ok st')
    (hk : (getItem? st.ns.m2p k).isSome) : (getItem? st'.ns.m2p k).isSome := by
  cases hc1 : ac.create_lambda ("<m2p/" ++ m.full_name ++ ">") with
  | error msg => simp only [registerBodyTry, hc1] at h; cases h
  | ok cv1 =>
    cases hc2 : ac.create_lambda ("<p2m/" ++ m.full_name ++ ">") with
    | error msg => simp only [registerBodyTry, hc1, hc2] at h; cases h
    | ok cv2 =>
      simp only [registerBodyTry, hc1, hc2] at h
      split at h
      · cases h
      · rename_i s2 heq
        cases h
        have hmid : (getItem? (setItem st.ns.m2p m.full_name cv1) k).isSome :=
          isSome_getItem?_setItem st.ns.m2p m.full_name k cv1 hk
        have hf := registerFieldsAux_m2p ac pool rmt hrmt m.fields _ s2 k heq hmid
        exact hf

theorem registerMessageType_m2p_mono (ac : AstCast) (pool : List MsgDesc) :
    ∀ (fuel mIdx : Nat) (st st' : RegState) (k : String),
      registerMessageType ac pool fuel mIdx st = .ok st' →
      (getItem? st.ns.m2p k).isSome → (getItem? st'.ns.m2p k).isSome := by
  intro fuel
  induction fuel with
  | zero =>
    intro mIdx st st' k h hk
    cases hp : pool[mIdx]? with
    | none =>
      simp only [registerMessageType, hp] at h
      cases h
      exact hk
    | some m =>
      simp only [registerMessageType, hp] at h
      by_cases hm : (getItem? st.ns.m2p m.full_name).isSome
      · rw [if_pos hm] at h
        cases h
        exact hk
      · rw [if_neg hm] at h
        cases h
  | succ n ih =>
    intro mIdx st st' k h hk
    cases hp : pool[mIdx]? with
    | none =>
      simp only [registerMessageType, hp] at h
      cases h
      exact hk
    | some m =>
      simp only [registerMessageType, hp] at h
      by_cases hm : (getItem? st.ns.m2p m.full_name).isSome
      · rw [if_pos hm] at h
        cases h
        exact hk
      · rw [if_neg hm] at h
        simp only [registerBody] at h
        cases hb : registerBodyTry ac pool (fun i s => registerMessageType ac pool n i s) m
            { st with registering := insert mIdx st.registering } with
        | error e => rw [hb] at h; cases h
        | ok s2 =>
          rw [hb] at h
          cases h
          exact registerBodyTry_m2p_mono ac pool _
            (fun i s s' k1 hr hk1 => ih i s s' k1 hr hk1) m _ s2 k hb hk

theorem registerBodyTry_m2p_self (ac : AstCast) (pool : List MsgDesc)
    (rmt : Nat → RegState → RegResult)
    (hrmt : ∀ i s s' k, rmt i s = .ok s' →
      (getItem? s.ns.m2p k).isSome → (getItem? s'.ns.m2p k).isSome)
    (m : MsgDesc) (st st' : RegState)
    (h : registerBodyTry ac pool rmt m st = .ok st') :
    (getItem? st'.ns.m2p m.full_name).isSome := by
  cases hc1 : ac.create_lambda ("<m2p/" ++ m.full_name ++ ">") with
  | error msg => simp only [registerBodyTry, hc1] at h; cases h
  | ok cv1 =>
    cases hc2 : ac.create_lambda ("<p2m/" ++ m.full_name ++ ">") with
    | error msg => simp only [registerBodyTry, hc1, hc2] at h; cases h
    | ok cv2 =>
      simp only [registerBodyTry, hc1, hc2] at h
      split at h
      · cases h
      · rename_i s2 heq
        cases h
        have hmid : (getItem? (setItem st.ns.m2p m.full_name cv1) m.full_name).isSome := by
          rw [getItem?_setItem_self]
          rfl
        have hf := registerFieldsAux_m2p ac pool rmt hrmt m.fields _ s2 m.full_name heq hmid
        exact hf

theorem registerMessageType_m2p_self (ac : AstCast) (pool : List MsgDesc) :
    ∀ (fuel mIdx : Nat) (m : MsgDesc) (st st' : RegState), pool[mIdx]? = some m →
      registerMessageType ac pool fuel mIdx st = .ok st' →
      (getItem? st'.ns.m2p m.full_name).isSome := by
  intro fuel
  induction fuel with
  | zero =>
    intro mIdx m st st' hp h
    simp only [registerMessageType, hp] at h
    by_cases hm : (getItem? st.ns.m2p m.full_name).isSome
    · rw [if_pos hm] at h
      cases h
      exact hm
    · rw [if_neg hm] at h
      cases h
  | succ n ih =>
    intro mIdx m st st' hp h
    simp only [registerMessageType, hp] at h
    by_cases hm : (getItem? st.ns.m2p m.full_name).isSome
    · rw [if_pos hm] at h
      cases h
      exact hm
    · rw [if_neg hm] at h
      simp only [registerBody] at h
      cases hb : registerBodyTry ac pool (fun i s => registerMessageType ac pool n i s) m
          { st with registering := insert mIdx st.registering } with
      | error e => rw [hb] at h; cases h
      | ok s2 =>
        rw [hb] at h
        cases h
        exact registerBodyTry_m2p_self ac pool _
          (fun i s s' k hr hk => registerMessageType_m2p_mono ac pool n i s s' k hr hk)
          m _ s2 hb

/-- C9: registering a message schema a second time is a no-op: once a
`register_message_type` call has succeeded, any further
`register_message_type` call on the same descriptor returns
immediately (its full name now has a message-to-container converter)
with the state unchanged — every namespace registry and the
in-progress set are exactly as before. -/
theorem registerMessageType_idempotent (ac : AstCast) (pool : List MsgDesc)
    (fuel fuel2 mIdx : Nat) (m : MsgDesc) (st st' : RegState)
    (hp : pool[mIdx]? = some m)
    (h : registerMessageType ac pool fuel mIdx st = .ok st') :
    registerMessageType ac pool fuel2 mIdx st' = .ok st' := by
  have hsome := registerMessageType_m2p_self ac pool fuel mIdx m st st' hp h
  cases fuel2 with
  | zero => simp [registerMessageType, hp, hsome]
  | succ n => simp [registerMessageType, hp, hsome]

/-- C9 witness: registering message 0 of the demo pool twice gives the
same state as registering it once; the second call is a no-op. -/
theorem registerMessageType_idempotent_witness :
    registerMessageType astcastOk demoPool 3 0 default = .ok demoAfterMsg ∧
    registerMessageType astcastOk demoPool 5 0 demoAfterMsg = .ok demoAfterMsg :=
  ⟨by decide,
    registerMessageType_idempotent astcastOk demoPool 3 5 0
      ⟨"test.A", false, [⟨"test.A.b", some 1⟩]⟩ default demoAfterMsg
      (by decide) (by decide)⟩

theorem fuelExhausted_error_any (e : PyErr) (s s' : RegState) :
    fuelExhausted (.error (e, s')) = fuelExhausted (.error (e, s)) := by
  cases e <;> rfl

theorem fieldConvSteps_nofuel (ac : AstCast) (f : FieldDesc) (st : RegState) :
    fuelExhausted (fieldConvSteps ac f st) = false := by
  cases hc1 : ac.create_lambda ("<m2p/" ++ f.full_name ++ ">") with
  | error msg => simp [fieldConvSteps, hc1, fuelExhausted]
  | ok cv1 =>
    cases hc2 : ac.create_lambda ("<p2m/" ++ f.full_name ++ ">") with
    | error msg => simp [fieldConvSteps, hc1, hc2, fuelExhausted]
    | ok cv2 => simp [fieldConvSteps, hc1, hc2, fuelExhausted]

theorem registerFieldTypeAux_nofuel (ac : AstCast) (pool : List MsgDesc)
    (rmt : Nat → RegState → RegResult) (b : Nat)
    (hrmt : ∀ i s, i < pool.length → s.registering ⊆ Finset.range pool.length →
      i ∉ s.registering → (Finset.range pool.length \ s.registering).card ≤ b →
      fuelExhausted (rmt i s) = false)
    (f : FieldDesc) (st : RegState)
    (hsub : st.registering ⊆ Finset.range pool.length)
    (hgap : (Finset.range pool.length \ st.registering).card ≤ b) :
    fuelExhausted (registerFieldTypeAux ac pool rmt f st) = false := by
  cases hft : f.message_type with
  | none =>
    simp only [registerFieldTypeAux, hft]
    exact fieldConvSteps_nofuel ac f st
  | some i =>
    cases hp : pool[i]? with
    | none =>
      simp only [registerFieldTypeAux, hft, hp]
      exact fieldConvSteps_nofuel ac f st
    | some mt =>
      simp only [registerFieldTypeAux, hft, hp]
      by_cases hguard : (mt.map_entry || decide (i ∈ st.registering)) = true
      · rw [if_pos hguard]
        exact fieldConvSteps_nofuel ac f st
      · rw [if_neg hguard]
        have hnotin : i ∉ st.registering := by
          intro hin
          exact hguard (by simp [hin])
        have hi : i < pool.length := by
          by_contra hge
          rw [List.getElem?_eq_none (Nat.le_of_not_lt hge)] at hp
          cases hp
        have hnf := hrmt i st hi hsub hnotin hgap
        cases hr : rmt i st with
        | error e =>
          rw [hr] at hnf
          exact hnf
        | ok s1 =>
          exact fieldConvSteps_nofuel ac f s1

theorem registerFieldsAux_nofuel (ac : AstCast) (pool : List MsgDesc)
    (rmt : Nat → RegState → RegResult) (b : Nat)
    (hpres : ∀ i s s', i ∉ s.registering → rmt i s = .ok s' → s'.registering = s.registering)
    (hrmt : ∀ i s, i < pool.length → s.registering ⊆ Finset.range pool.length →
      i ∉ s.registering → (Finset.range pool.length \ s.registering).card ≤ b →
      fuelExhausted (rmt i s) = false) :
    ∀ (fs : List FieldDesc) (st : RegState),
      st.registering ⊆ Finset.range pool.length →
      (Finset.range pool.length \ st.registering).card ≤ b →
      fuelExhausted (registerFieldsAux ac pool rmt fs st) = false := by
  intro fs
  induction fs with
  | nil =>
    intro st _ _
    rfl
  | cons f rest ih =>
    intro st hsub hgap
    simp only [registerFieldsAux]
    have hnf := registerFieldTypeAux_nofuel ac pool rmt b hrmt f st hsub hgap
    cases hf : registerFieldTypeAux ac pool rmt f st with
    | error e =>
      rw [hf] at hnf
      exact hnf
    | ok s1 =>
      have hreg := registerFieldTypeAux_reg ac pool rmt hpres f st s1 hf
      exact ih s1 (by rw [hreg]; exact hsub) (by rw [hreg]; exact hgap)

theorem registerBodyTry_nofuel (ac : AstCast) (pool : List MsgDesc)
    (rmt : Nat → RegState → RegResult) (b : Nat)
    (hpres : ∀ i s s', i ∉ s.registering → rmt i s = .ok s' → s'.registering = s.registering)
    (hrmt : ∀ i s, i < pool.length → s.registering ⊆ Finset.range pool.length →
      i ∉ s.registering → (Finset.range pool.length \ s.registering).card ≤ b →
      fuelExhausted (rmt i s) = false)
    (m : MsgDesc) (st : RegState)
    (hsub : st.registering ⊆ Finset.range pool.length)
    (hgap : (Finset.range pool.length \ st.registering).card ≤ b) :
    fuelExhausted (registerBodyTry ac pool rmt m st) = false := by
  cases hc1 : ac.create_lambda ("<m2p/" ++ m.full_name ++ ">") with
  | error msg => simp [registerBodyTry, hc1, fuelExhausted]
  | ok cv1 =>
    cases hc2 : ac.create_lambda ("<p2m/" ++ m.full_name ++ ">") with
    | error msg => simp [registerBodyTry, hc1, hc2, fuelExhausted]
    | ok cv2 =>
      simp only [registerBodyTry, hc1, hc2]
      have hnf := registerFieldsAux_nofuel ac pool rmt b hpres hrmt m.fields
        (withMsgConvs m cv1 cv2 st) hsub hgap
      cases hfl : registerFieldsAux ac pool rmt m.fields (withMsgConvs m cv1 cv2 st) with
      | error e =>
        rw [hfl] at hnf
        exact hnf
      | ok s2 => rfl

theorem registerMessageType_nofuel (ac : AstCast) (pool : List MsgDesc) :
    ∀ (fuel mIdx : Nat) (st : RegState),
      mIdx < pool.length → st.registering ⊆ Finset.range pool.length →
      mIdx ∉ st.registering →
      (Finset.range pool.length \ st.registering).card ≤ fuel →
      fuelExhausted (registerMessageType ac pool fuel mIdx st) = false := by
  intro fuel
  induction fuel with
  | zero =>
    intro mIdx st hm hsub hnot hgap
    have hmem : mIdx ∈ Finset.range pool.length \ st.registering := by
      rw [Finset.mem_sdiff, Finset.mem_range]
      exact ⟨hm, hnot⟩
    have : 0 < (Finset.range pool.length \ st.registering).card :=
      Finset.card_pos.mpr ⟨mIdx, hmem⟩
    omega
  | succ n ih =>
    intro mIdx st hm hsub hnot hgap
    cases hp : pool[mIdx]? with
    | none => simp [registerMessageType, hp, fuelExhausted]
    | some m =>
      simp only [registerMessageType, hp]
      by_cases hm2p : (getItem? st.ns.m2p m.full_name).isSome
      · rw [if_pos hm2p]
        rfl
      · rw [if_neg hm2p]
        simp only [registerBody]
        have hmem : mIdx ∈ Finset.range pool.length \ st.registering := by
          rw [Finset.mem_sdiff, Finset.mem_range]
          exact ⟨hm, hnot⟩
        have hsub1 : (insert mIdx st.registering) ⊆ Finset.range pool.length := by
          intro x hx
          rcases Finset.mem_insert.mp hx with rfl | hx
          · exact Finset.mem_range.mpr hm
          · exact hsub hx
        have hgap1 : (Finset.range pool.length \ insert mIdx st.registering).card ≤ n := by
          rw [Finset.sdiff_insert]
          have hcard := Finset.card_erase_of_mem hmem
          omega
        have hb := registerBodyTry_nofuel ac pool
          (fun i s => registerMessageType ac pool n i s) n
          (fun i s s' hi hr => registerMessageType_reg ac pool n i s s' hi hr)
          (fun i s hi hs hni hg => ih i s hi hs hni hg)
          m { st with registering := insert mIdx st.registering } hsub1 hgap1
        cases hbt : registerBodyTry ac pool (fun i s => registerMessageType ac pool n i s) m
            { st with registering := insert mIdx st.registering } with
        | error e =>
          obtain ⟨e1, s1⟩ := e
          rw [hbt] at hb
          exact (fuelExhausted_error_any e1 s1 _).trans hb
        | ok s2 => rfl

/-- C4: `register_message_type` terminates on every finite schema
graph, including graphs in which a message references itself directly
or through other messages: with fuel exceeding the number of message
descriptors in the pool, the registration never exhausts its fuel,
because the in-progress guard consulted by `register_field_type`
prevents re-entering a registration already underway, so the
in-progress set grows strictly along every chain of nested
registrations. -/
theorem registerMessageType_terminates (ac : AstCast) (pool : List MsgDesc)
    (fuel mIdx : Nat) (st : RegState)
    (hm : mIdx < pool.length) (hsub : st.registering ⊆ Finset.range pool.length)
    (hnot : mIdx ∉ st.registering) (hfuel : pool.length < fuel) :
    fuelExhausted (registerMessageType ac pool fuel mIdx st) = false := by
  apply registerMessageType_nofuel ac pool fuel mIdx st hm hsub hnot
  have h1 : (Finset.range pool.length \ st.registering).card ≤
      (Finset.range pool.length).card :=
    Finset.card_le_card (Finset.sdiff_subset)
  rw [Finset.card_range] at h1
  omega

/-- C4 witness: on the mutually recursive two-message demo pool (A's
field references B, B's field references A), registration of A with
fuel 3 terminates without exhausting fuel. -/
theorem registerMessageType_terminates_witness :
    (0 < demoPool.length ∧ (default : RegState).registering ⊆
        Finset.range demoPool.length ∧ 0 ∉ (default : RegState).registering ∧
        demoPool.length < 3) ∧
    fuelExhausted (registerMessageType astcastOk demoPool 3 0 default) = false :=
  ⟨⟨by decide, by decide, by decide, by decide⟩,
    registerMessageType_terminates astcastOk demoPool 3 0 default
      (by decide) (by decide) (by decide) (by decide)⟩
